import Mathlib

/-!
Verification of the MongoDB ElizaOS adapter's hybrid similarity-search and
deduplication engine, shallowly embedded from the TypeScript source
(`MongoDBDatabaseAdapter`).  Machine numbers are modelled as `Nat` / `ℚ` / `ℝ`,
the mutable Levenshtein scratch matrix as explicit `List (List Nat)` state,
fallible operations as `Except`, and the database as oracle parameters.
-/

deriving instance DecidableEq for Except

namespace MongoAdapter

/-! ## Levenshtein engine

`calculateLevenshteinDistanceOptimized` (source lines 657-766) and its shared
scratch matrix `getLevenshteinMatrix` (lines 768-792).  The matrix is the
adapter-instance state `this.levenshteinMatrix`, modelled as `List (List Nat)`;
JS array reads `m[i][j]` are `getCell`, writes are `setCell`. -/

/-- Read cell `(i, j)` of the scratch matrix (JS `matrix[i][j]`; out-of-range
reads never happen on the executed paths). -/
def getCell (m : List (List Nat)) (i j : Nat) : Nat :=
  (m.getD i []).getD j 0

/-- Write cell `(i, j)` of the scratch matrix (JS `matrix[i][j] = v`). -/
def setCell (m : List (List Nat)) (i j v : Nat) : List (List Nat) :=
  m.set i ((m.getD i []).set j v)

/-- Source `getLevenshteinMatrix` (lines 771-792): reuse the cached matrix when
it has at least `rows` rows and row 0 has at least `cols` columns, otherwise
replace it by a fresh `rows × cols` zero matrix.  The three disjuncts mirror
the JS condition, including the `matrix[0]?.length || 0` read. -/
def getLevenshteinMatrix (m : List (List Nat)) (rows cols : Nat) :
    List (List Nat) :=
  if m.length < rows ∨ (0 < m.length ∧ (m.headD []).length < cols) ∨
      (m.length = 0 ∧ 0 < cols) then
    List.replicate rows (List.replicate cols 0)
  else m

/-- Column-initialisation loop (source lines 695-720): for `i = start,
start+1, …` (`k` iterations) set `matrix[i][0] = i`, first checking that row
`i` exists and is non-empty (the JS defensive checks that `throw`). -/
def initColAux (m : List (List Nat)) (start : Nat) : Nat →
    Except String (List (List Nat))
  | 0 => .ok m
  | k + 1 =>
    if m.length ≤ start then .error "matrix row undefined"
    else if (m.getD start []).length < 1 then .error "matrix row empty"
    else initColAux (setCell m start 0 start) (start + 1) k

/-- Row-initialisation loop (source lines 745-748): for `j = start, …`
(`k` iterations) set `matrix[0][j] = j` (no checks inside this loop). -/
def initRowAux (m : List (List Nat)) (start : Nat) : Nat → List (List Nat)
  | 0 => m
  | k + 1 => initRowAux (setCell m 0 start start) (start + 1) k

/-- One DP cell update (source lines 753-761), at `(i, j)` with `i, j ≥ 1`:
copy the diagonal on equal characters, else `Math.min(substitution,
insertion, deletion) + 1` in the source's order. -/
def fillCell (c1 c2 : List Char) (m : List (List Nat)) (i j : Nat) :
    List (List Nat) :=
  if c1.getD (i - 1) default = c2.getD (j - 1) default then
    setCell m i j (getCell m (i - 1) (j - 1))
  else
    setCell m i j
      (min (getCell m (i - 1) (j - 1) + 1)
        (min (getCell m i (j - 1) + 1) (getCell m (i - 1) j + 1)))

/-- Inner DP loop (source line 752): fill row `i`, columns `j, j+1, …`
(`k` iterations). -/
def fillRowAux (c1 c2 : List Char) (m : List (List Nat)) (i j : Nat) :
    Nat → List (List Nat)
  | 0 => m
  | k + 1 => fillRowAux c1 c2 (fillCell c1 c2 m i j) i (j + 1) k

/-- Outer DP loop (source line 751): fill rows `i, i+1, …` (`k` iterations),
each row over columns `1 … c2.length`. -/
def fillAux (c1 c2 : List Char) (m : List (List Nat)) (i : Nat) :
    Nat → List (List Nat)
  | 0 => m
  | k + 1 => fillAux c1 c2 (fillRowAux c1 c2 m i 1 c2.length) (i + 1) k

/-- Body of `calculateLevenshteinDistanceOptimized` after its early returns
and the swap making `s1` the shorter string (source lines 673-765): matrix
fetch from the instance state, the defensive checks that `throw`, base
row/column initialisation, DP fill, and the result read. -/
def levCompute (st : List (List Nat)) (s1 s2 : String) :
    Except String (Nat × List (List Nat)) :=
  let mat0 := getLevenshteinMatrix st (s1.length + 1) (s2.length + 1)
  if mat0.length < s1.length + 1 then
    .error "matrix row dimension incorrect"
  else
    match initColAux mat0 0 (s1.length + 1) with
    | .error e => .error e
    | .ok matc =>
      if matc.length < 1 then .error "matrix row 0 undefined"
      else if (matc.getD 0 []).length < s2.length + 1 then
        .error "matrix column dimension incorrect"
      else
        let matr := initRowAux matc 0 (s2.length + 1)
        let matf := fillAux s1.data s2.data matr 1 s1.length
        .ok (getCell matf s1.length s2.length, matf)

/-- Source `calculateLevenshteinDistanceOptimized` (lines 657-766): early
returns for equal and empty strings, then the swap `[str1, str2] = [str2,
str1]` when `str1` is longer, then the shared body `levCompute`.  Returns
the distance together with the updated scratch-matrix state; `.error` models
the thrown internal-consistency exceptions. -/
def calculateLevenshteinDistanceOptimized (st : List (List Nat))
    (str1 str2 : String) : Except String (Nat × List (List Nat)) :=
  if str1 = str2 then .ok (0, st)
  else if str1.length = 0 then .ok (str2.length, st)
  else if str2.length = 0 then .ok (str1.length, st)
  else if str1.length > str2.length then levCompute st str2 str1
  else levCompute st str1 str2

/-- Row `i + 1` of the textbook DP table, given row `i` as `prev`: the helper
making `levRef` structurally recursive (and so kernel-computable). -/
def levRefRow (c1 c2 : List Char) (i : Nat) (prev : Nat → Nat) : Nat → Nat
  | 0 => i + 1
  | j + 1 =>
    if c1.getD i default = c2.getD j default then prev j
    else
      min (prev j + 1) (min (levRefRow c1 c2 i prev j + 1) (prev (j + 1) + 1))

/-- Textbook dynamic-programming table for edit distance: `levRef c1 c2 i j`
is the cell `D[i][j]` of the classic freshly-allocated matrix, the unit-cost
edit distance between the first `i` characters of `c1` and the first `j`
characters of `c2`.  The three defining equations are restated by
`levRef_zero`, `levRef_succ_zero` and `levRef_succ_succ` below. -/
def levRef (c1 c2 : List Char) : Nat → Nat → Nat
  | 0 => fun j => j
  | i + 1 => levRefRow c1 c2 i (levRef c1 c2 i)

/-- Textbook base row: distance of the empty prefix to the first `j`
characters is `j`. -/
theorem levRef_zero (c1 c2 : List Char) (j : Nat) : levRef c1 c2 0 j = j :=
  rfl

/-- Textbook base column: distance of the first `i + 1` characters to the
empty prefix is `i + 1`. -/
theorem levRef_succ_zero (c1 c2 : List Char) (i : Nat) :
    levRef c1 c2 (i + 1) 0 = i + 1 :=
  rfl

/-- Textbook interior recurrence: copy the diagonal on equal characters, else
one plus the minimum of substitution, insertion and deletion. -/
theorem levRef_succ_succ (c1 c2 : List Char) (i j : Nat) :
    levRef c1 c2 (i + 1) (j + 1) =
      if c1.getD i default = c2.getD j default then levRef c1 c2 i j
      else
        min (levRef c1 c2 i j + 1)
          (min (levRef c1 c2 (i + 1) j + 1) (levRef c1 c2 i (j + 1) + 1)) :=
  rfl

/-- The classic textbook edit distance of two strings, computed on a fresh
matrix: the bottom-right cell of `levRef`. -/
def levenshteinFresh (a b : String) : Nat :=
  levRef a.data b.data a.length b.length

/-- Reachable scratch-matrix states are rectangular: every row has the length
of row 0 (the matrix is only ever `[]` or built by `List.replicate`, and cell
writes preserve row lengths). -/
def Rect (m : List (List Nat)) : Prop :=
  ∀ r ∈ m, r.length = (m.headD []).length

instance (m : List (List Nat)) : Decidable (Rect m) := by
  unfold Rect; infer_instance

/-! ## Database queries issued by the search entry points

Each search entry point is modelled together with the trace of queries it
sends to the store, so that capability-gating claims can be stated. -/

/-- A query issued against the backing store: a native `$search`/`vectorSearch`
aggregation, a plain `find`, or the fallback `$match`-based aggregation. -/
inductive IssuedQuery where
  | nativeVectorSearch (collection : String) (numCandidates : Nat)
  | standardFind (collection : String)
  | fallbackAggregate (collection : String)
deriving DecidableEq

/-! ## Similarity fallback engine (source lines 486-529)

Embedding numbers are modelled as real numbers. -/

/-- Source `cosineSimilarity` (lines 519-529): dot product over the first
vector's indices divided by the product of Euclidean magnitudes.  For
equal-length vectors the index-based JS `reduce` is exactly the `zipWith`
sum. -/
noncomputable def cosineSimilarity (a b : List ℝ) : ℝ :=
  (List.zipWith (fun x y => x * y) a b).sum /
    (Real.sqrt ((a.map fun v => v * v).sum) *
      Real.sqrt ((b.map fun v => v * v).sum))

/-- The `vectorScore` the fallback knowledge pipeline assigns (source lines
1433-1462): `0` for a missing/empty embedding, else
`1 / (1 + cosineSimilarity(query, embedding))`. -/
noncomputable def fallbackVectorScore (queryEmbedding e : List ℝ) : ℝ :=
  if e.length = 0 then 0 else 1 / (1 + cosineSimilarity queryEmbedding e)

/-- A stored memory document as seen by the memory-search paths. -/
structure MemDoc where
  id : String
  embedding : List ℝ

/-- Source `searchMemoriesFallback` (lines 486-517): fetch up to `limit`
candidates with a plain filtered `find`, attach the in-process cosine
similarity to each, and sort descending by it (the JS numeric comparator
`b.similarity - a.similarity`).  No threshold is applied anywhere.  The
string-content/createdAt normalisation step does not affect which documents
are returned and is omitted. -/
noncomputable def searchMemoriesFallback (queryEmbedding : List ℝ)
    (candidates : List MemDoc) (limit : Nat) : List MemDoc :=
  (((candidates.take limit).map
      (fun m => (m, cosineSimilarity queryEmbedding m.embedding))).insertionSort
    (fun x y => y.2 ≤ x.2)).map Prod.fst

/-- Source `searchMemories` (lines 531-599): when the capability flag is set,
run the native vector-search aggregation (`numCandidates = match_count * 2`)
and on its failure fall back; when the flag is unset go directly to the
fallback.  `native` is the oracle outcome of the native aggregation;
the second component is the trace of store queries issued. -/
noncomputable def searchMemoriesModel (hasVectorSearch : Bool)
    (native : Except String (List MemDoc)) (queryEmbedding : List ℝ)
    (candidates : List MemDoc) (matchCount : Nat) :
    Except String (List MemDoc) × List IssuedQuery :=
  if hasVectorSearch then
    match native with
    | .ok ms => (.ok ms, [.nativeVectorSearch "memories" (matchCount * 2)])
    | .error _ =>
      (.ok (searchMemoriesFallback queryEmbedding candidates matchCount),
        [.nativeVectorSearch "memories" (matchCount * 2),
          .standardFind "memories"])
  else
    (.ok (searchMemoriesFallback queryEmbedding candidates matchCount),
      [.standardFind "memories"])

/-- Source `searchMemoriesByEmbedding` (lines 601-651): it builds the
`$search`/`vectorSearch` pipeline (`numCandidates = (count ?? 10) * 2`)
and runs it unconditionally — no capability-flag test and no catch.  The
`hasVectorSearch` argument is accepted to show the result is independent of
the flag. -/
def searchMemoriesByEmbeddingModel (hasVectorSearch : Bool)
    (native : Except String (List MemDoc)) (count : Option Nat) :
    Except String (List MemDoc) × List IssuedQuery :=
  (native, [.nativeVectorSearch "memories" (count.getD 10 * 2)])

/-! ## Hybrid scorer: the shared knowledge-search pipeline stages
(source lines 1422-1516)

Scores are modelled as rationals; `vectorScore` is the value the
`$addFields` stage attaches to a candidate (the `$meta` index score on the
native path, `fallbackVectorScore` on the fallback path). -/

/-- A knowledge document's fields read by the scorer. -/
structure KDoc where
  text : String
  isChunk : Bool
  isMain : Bool
deriving DecidableEq

/-- The `$regexMatch` test of `calculateKeywordScore` (lines 1494-1500):
the lowercased query is used as a regex over the lowercased `content.text`;
for metacharacter-free queries this is exactly case-insensitive substring
containment, which is how it is modelled. -/
def textMatches (docText searchText : String) : Bool :=
  decide (List.IsInfix searchText.toLower.data docText.toLower.data)

/-- Source `calculateKeywordScore` (lines 1488-1516): baseline 1.0,
multiplied by 3.0 on a query-text match, and by 1.5 if `isChunk`, else 1.2
if `isMain`, else 1.0.  With no search text the first `$cond` tests the
literal `false`. -/
def keywordScore (searchText : Option String) (d : KDoc) : ℚ :=
  (match searchText with
    | some s => if textMatches d.text s then 3 else 1
    | none => 1) *
  (if d.isChunk then 3 / 2 else if d.isMain then 6 / 5 else 1)

/-- A candidate together with the `vectorScore` attached by `$addFields`. -/
structure ScoredKDoc where
  doc : KDoc
  vectorScore : ℚ
deriving DecidableEq

/-- The second `$addFields` stage (lines 1466-1470):
`combinedScore = vectorScore * keywordScore`. -/
def combinedScore (searchText : Option String) (c : ScoredKDoc) : ℚ :=
  c.vectorScore * keywordScore searchText c.doc

/-- The `$match` acceptance stage (lines 1471-1483): keep a candidate iff
`vectorScore ≥ match_threshold` or (`keywordScore > 1.0` and
`vectorScore ≥ 0.3`). -/
def acceptCandidate (threshold : ℚ) (searchText : Option String)
    (c : ScoredKDoc) : Bool :=
  decide (threshold ≤ c.vectorScore) ||
    (decide ((1 : ℚ) < keywordScore searchText c.doc) &&
      decide ((3 : ℚ) / 10 ≤ c.vectorScore))

/-- Source `getKnowledgeSearchPipeline` (lines 1422-1486) applied to the
scored candidates: the acceptance `$match` followed by
`$sort: (combinedScore: -1)`. -/
def knowledgeSearchPipeline (searchText : Option String) (threshold : ℚ)
    (cands : List ScoredKDoc) : List ScoredKDoc :=
  (cands.filter (acceptCandidate threshold searchText)).insertionSort
    (fun x y => combinedScore searchText y ≤ combinedScore searchText x)

/-! ## Result cache and `searchKnowledge` (source lines 1217-1253 and
1306-1420) -/

/-- A document of the `cache` collection. -/
structure CacheEntry where
  key : String
  agentId : String
  value : String
  createdAt : Nat
  expiresAt : Nat
deriving DecidableEq

/-- The 24-hour TTL used by `setCache` (line 1243), in milliseconds. -/
def ttlMs : Nat := 24 * 60 * 60 * 1000

/-- Source `getCache` (lines 1217-1228): `findOne` on key, agentId and
`expiresAt > now`, returning the stored value. -/
def getCacheModel (store : List CacheEntry) (now : Nat)
    (key agentId : String) : Option String :=
  (store.find? (fun e =>
    e.key == key && e.agentId == agentId && decide (now < e.expiresAt))).map
    (fun e => e.value)

/-- Source `setCache` (lines 1230-1253): `updateOne` with upsert on
(key, agentId), setting value, `createdAt = now` and
`expiresAt = now + 24h`. -/
def setCacheModel (store : List CacheEntry) (now : Nat)
    (key agentId value : String) : List CacheEntry :=
  match store with
  | [] => [⟨key, agentId, value, now, now + ttlMs⟩]
  | e :: es =>
    if e.key == key && e.agentId == agentId then
      ⟨e.key, e.agentId, value, now, now + ttlMs⟩ :: es
    else e :: setCacheModel es now key agentId value

/-- The cache key of `searchKnowledge` (line 1315):
`embedding_agentId_searchText`, where a missing search text prints as the
JS string `undefined` in the template literal. -/
def cacheKeyOf (agentId : String) (searchText : Option String) : String :=
  "embedding_" ++ agentId ++ "_" ++
    (match searchText with | some s => s | none => "undefined")

/-- A document produced by the knowledge-search aggregation. -/
structure KnowledgeResultDoc where
  id : String
  agentId : String
  contentText : String
  combinedScore : Option ℚ
deriving DecidableEq

/-- A `RAGKnowledgeItem` as returned by `searchKnowledge`. -/
structure RAGItemM where
  id : String
  agentId : String
  contentText : String
  similarity : ℚ
deriving DecidableEq

/-- The result mapping of `searchKnowledge` (lines 1342-1357):
`similarity = combinedScore || 0`; content/embedding conversions do not
affect the modelled fields. -/
def mapRAGItem (d : KnowledgeResultDoc) : RAGItemM :=
  ⟨d.id, d.agentId, d.contentText, d.combinedScore.getD 0⟩

/-- The tail of a cache-miss `searchKnowledge` call: map the documents and
write the serialised result back to the cache. -/
def finishKnowledgeSearch (store : List CacheEntry) (now : Nat)
    (key agentId : String) (serialize : List RAGItemM → String)
    (docs : List KnowledgeResultDoc) : List RAGItemM × List CacheEntry :=
  (docs.map mapRAGItem,
    setCacheModel store now key agentId (serialize (docs.map mapRAGItem)))

/-- Source `searchKnowledge` (lines 1306-1370): consult the cache first and
return the parsed cached value on a hit; on a miss run the native path when
the capability flag is set (falling back on its failure) or the fallback
path directly, map the documents, write the serialised result back to the
cache, and return it.  `native`/`fallback` are the oracle outcomes of the
two aggregations, `serialize`/`parse` model `JSON.stringify`/`JSON.parse`;
the second component is the trace of store queries issued. -/
def searchKnowledgeModel (store : List CacheEntry) (now : Nat)
    (agentId : String) (searchText : Option String) (matchCount : Nat)
    (hasVectorSearch : Bool)
    (native fallback : Except String (List KnowledgeResultDoc))
    (serialize : List RAGItemM → String) (parse : String → List RAGItemM) :
    Except String (List RAGItemM × List CacheEntry) × List IssuedQuery :=
  match getCacheModel store now (cacheKeyOf agentId searchText) agentId with
  | some v => (.ok (parse v, store), [])
  | none =>
    if hasVectorSearch then
      match native with
      | .ok docs =>
        (.ok (finishKnowledgeSearch store now (cacheKeyOf agentId searchText)
            agentId serialize docs),
          [.nativeVectorSearch "knowledge" (matchCount * 2)])
      | .error _ =>
        match fallback with
        | .ok docs =>
          (.ok (finishKnowledgeSearch store now
              (cacheKeyOf agentId searchText) agentId serialize docs),
            [.nativeVectorSearch "knowledge" (matchCount * 2),
              .fallbackAggregate "knowledge"])
        | .error e =>
          (.error e,
            [.nativeVectorSearch "knowledge" (matchCount * 2),
              .fallbackAggregate "knowledge"])
    else
      match fallback with
      | .ok docs =>
        (.ok (finishKnowledgeSearch store now
            (cacheKeyOf agentId searchText) agentId serialize docs),
          [.fallbackAggregate "knowledge"])
      | .error e => (.error e, [.fallbackAggregate "knowledge"])

/-! ## `createMemory` and the dedup gate (source lines 438-484) -/

/-- The parameters `createMemory` passes to `searchMemories`. -/
structure SearchParams where
  tableName : String
  roomId : String
  agentId : Option String
  matchThreshold : ℚ
  matchCount : Nat
  unique : Bool
deriving DecidableEq

/-- The caller-supplied memory record. -/
structure MemoryInput where
  id : Option String
  roomId : String
  agentId : Option String
  userId : String
  content : String
  embedding : Option (List ℚ)
  createdAt : Option Nat
deriving DecidableEq

/-- The document `createMemory` inserts (lines 467-480). -/
structure MemoryWrite where
  id : String
  type : String
  content : String
  embedding : Option (List ℚ)
  userId : String
  roomId : String
  agentId : Option String
  unique : Bool
  createdAt : Nat
deriving DecidableEq

/-- The dedup search call of `createMemory` (lines 444-452): same table,
room and agent, `match_threshold = 0.95`, `match_count = 1`, restricted to
records flagged unique (`unique: isUnique` with `isUnique` still `true`). -/
def dedupSearchParams (m : MemoryInput) (tableName : String) : SearchParams :=
  ⟨tableName, m.roomId, m.agentId, 95 / 100, 1, true⟩

/-- The inserted document (lines 467-480): `id = memory.id ?? v4()`,
`createdAt = memory.createdAt ?? Date.now()`; `freshId` and `nowMs` are the
oracle draws for `v4()` and `Date.now()`. -/
def mkMemoryWrite (m : MemoryInput) (tableName freshId : String)
    (nowMs : Nat) (uniqueFlag : Bool) : MemoryWrite :=
  ⟨m.id.getD freshId, tableName, m.content, m.embedding, m.userId, m.roomId,
    m.agentId, uniqueFlag, m.createdAt.getD nowMs⟩

/-- An observable event of a `createMemory` run: a dedup search with its
parameters, or a successfully persisted insert. -/
inductive CMEvent where
  | searched (params : SearchParams)
  | inserted (doc : MemoryWrite)
deriving DecidableEq

/-- Source `createMemory` (lines 438-484): `ensureConnection` outside the
`try` (its failure propagates), then inside the `try`: when an embedding is
present, the dedup search decides the `unique` flag (`similarMemories.length
=== 0`); the insert persists the document; any error thrown inside the
`try` is caught and only logged, so the call still resolves.  `connection`,
`search` and `insert` are the store oracles; the result lists the events
that actually happened. -/
def createMemoryModel (connection : Except String Unit)
    (search : SearchParams → Except String (List MemoryWrite))
    (insert : MemoryWrite → Except String Unit)
    (m : MemoryInput) (tableName freshId : String) (nowMs : Nat) :
    Except String (List CMEvent) :=
  match connection with
  | .error e => .error e
  | .ok _ =>
    match m.embedding with
    | some _ =>
      match search (dedupSearchParams m tableName) with
      | .error _ => .ok [.searched (dedupSearchParams m tableName)]
      | .ok sims =>
        match insert (mkMemoryWrite m tableName freshId nowMs
            (sims.length == 0)) with
        | .error _ => .ok [.searched (dedupSearchParams m tableName)]
        | .ok _ =>
          .ok [.searched (dedupSearchParams m tableName),
            .inserted (mkMemoryWrite m tableName freshId nowMs
              (sims.length == 0))]
    | none =>
      match insert (mkMemoryWrite m tableName freshId nowMs true) with
      | .error _ => .ok []
      | .ok _ => .ok [.inserted (mkMemoryWrite m tableName freshId nowMs true)]

/-! ## `getCachedEmbeddings` per-document scoring (source lines 794-893) -/

/-- A document returned by the relevance `$search` aggregation;
`fieldText` is `memory.content[query_field_name][query_field_sub_name]`,
`none` when that access throws on malformed content. -/
structure PipelineDoc where
  embedding : List ℚ
  fieldText : Option String
deriving DecidableEq

/-- One element of the array built by the `.map` in `getCachedEmbeddings`
(lines 850-870): either a scored record, or the empty-array placeholder
`[]` returned by the per-document `catch`. -/
inductive ScoredEntry where
  | record (embedding : List ℚ) (levenshtein_score : Nat)
  | emptyArray
deriving DecidableEq

/-- Score one document (lines 851-869): a malformed field access or a thrown
Levenshtein internal error is caught and yields the `[]` placeholder; the
Levenshtein scratch state threads through. -/
def scoreOne (levState : List (List Nat)) (queryInput : String)
    (d : PipelineDoc) : ScoredEntry × List (List Nat) :=
  match d.fieldText with
  | none => (.emptyArray, levState)
  | some t =>
    match calculateLevenshteinDistanceOptimized levState queryInput t with
    | .ok (dist, st') => (.record d.embedding dist, st')
    | .error _ => (.emptyArray, levState)

/-- The `.map` over all pipeline documents, threading the shared Levenshtein
scratch matrix. -/
def scoreDocs (levState : List (List Nat)) (queryInput : String) :
    List PipelineDoc → List ScoredEntry × List (List Nat)
  | [] => ([], levState)
  | d :: ds =>
    let r := scoreOne levState queryInput d
    let rest := scoreDocs r.2 queryInput ds
    (r.1 :: rest.1, rest.2)

/-- The sort comparator (lines 872-876): ascending by `levenshtein_score`;
on the `[]` placeholder the score reads `undefined`, both comparisons are
false and the comparator returns 0, so placeholders compare as equal to
everything and the stable sort keeps them in place. -/
def scoredLE (x y : ScoredEntry) : Bool :=
  match x, y with
  | .record _ sx, .record _ sy => sx ≤ sy
  | _, _ => true

/-- The result-assembly of `getCachedEmbeddings` (lines 850-877): map each
aggregation document to a scored entry (or the `[]` placeholder), sort by
Levenshtein score, and `slice(0, query_match_count)`.  The aggregation
itself is the oracle input `pipelineDocs`. -/
def getCachedEmbeddingsModel (levState : List (List Nat))
    (queryInput : String) (pipelineDocs : List PipelineDoc)
    (matchCount : Nat) : List ScoredEntry × List (List Nat) :=
  ((scoreDocs levState queryInput pipelineDocs).1.insertionSort
      (fun x y => scoredLE x y = true) |>.take matchCount,
    (scoreDocs levState queryInput pipelineDocs).2)

/-! ### Cell-access lemmas -/

theorem getD_set_lemma {α : Type} :
    ∀ (l : List α) (i i' : Nat) (v d : α),
      (l.set i v).getD i' d = if i = i' ∧ i < l.length then v else l.getD i' d := by
  intro l
  induction l with
  | nil => intro i i' v d; simp
  | cons x xs ih =>
    intro i i' v d
    cases i with
    | zero =>
      cases i' with
      | zero => simp
      | succ i' => simp
    | succ i =>
      cases i' with
      | zero => simp
      | succ i' =>
        simp only [List.set_cons_succ, List.getD_cons_succ, List.length_cons, ih]
        have hiff : (i = i' ∧ i < xs.length) ↔
            (i + 1 = i' + 1 ∧ i + 1 < xs.length + 1) := by omega
        rw [if_congr hiff rfl rfl]

theorem getD_replicate_lemma {α : Type} (a d : α) :
    ∀ (n i : Nat), i < n → (List.replicate n a).getD i d = a := by
  intro n
  induction n with
  | zero => intro i h; omega
  | succ n ih =>
    intro i h
    cases i with
    | zero => simp [List.replicate_succ]
    | succ i => simpa [List.replicate_succ] using ih i (by omega)

theorem length_setCell (m : List (List Nat)) (i j v : Nat) :
    (setCell m i j v).length = m.length := by
  simp [setCell]

theorem rowLen_setCell (m : List (List Nat)) (i j v t : Nat) :
    ((setCell m i j v).getD t []).length = (m.getD t []).length := by
  unfold setCell
  rw [getD_set_lemma]
  split
  · next h =>
    obtain ⟨h1, _⟩ := h
    subst h1
    simp
  · rfl

theorem getCell_setCell (m : List (List Nat)) (i j v i' j' : Nat)
    (hi : i < m.length) (hj : j < (m.getD i []).length) :
    getCell (setCell m i j v) i' j' =
      if i = i' ∧ j = j' then v else getCell m i' j' := by
  unfold getCell setCell
  rw [getD_set_lemma]
  by_cases hii : i = i'
  · subst hii
    rw [if_pos ⟨rfl, hi⟩, getD_set_lemma]
    by_cases hjj : j = j'
    · subst hjj
      rw [if_pos ⟨rfl, hj⟩, if_pos ⟨rfl, rfl⟩]
    · simp [hjj]
  · rw [if_neg (by simp [hii])]
    simp [hii]

theorem getD_mem_lemma {α : Type} (d : α) :
    ∀ (l : List α) (t : Nat), t < l.length → l.getD t d ∈ l := by
  intro l
  induction l with
  | nil => intro t h; simp at h
  | cons x xs ih =>
    intro t h
    cases t with
    | zero => simp
    | succ t =>
      simp only [List.getD_cons_succ]
      exact List.mem_cons_of_mem x (ih t (by simpa using h))

theorem headD_eq_getD_zero {α : Type} (l : List α) (d : α) :
    l.headD d = l.getD 0 d := by
  cases l <;> rfl

/-- After `getLevenshteinMatrix st rows cols` on a rectangular state the
matrix has at least `rows` rows and every row has at least `cols` columns. -/
theorem getLevenshteinMatrix_dims (st : List (List Nat)) (rows cols : Nat)
    (hrect : Rect st) (hr : 1 ≤ rows) :
    rows ≤ (getLevenshteinMatrix st rows cols).length ∧
      (∀ t < (getLevenshteinMatrix st rows cols).length,
        cols ≤ ((getLevenshteinMatrix st rows cols).getD t []).length) := by
  unfold getLevenshteinMatrix
  split
  · constructor
    · simp
    · intro t ht
      simp only [List.length_replicate] at ht
      rw [getD_replicate_lemma _ _ _ _ ht]
      simp
  · next hcond =>
    push_neg at hcond
    obtain ⟨h1, h2, _⟩ := hcond
    have hlen : rows ≤ st.length := by omega
    have hpos : 0 < st.length := by omega
    have hhead : cols ≤ (st.headD []).length := by
      have := h2 hpos
      omega
    refine ⟨hlen, fun t ht => ?_⟩
    have hmem : st.getD t [] ∈ st := getD_mem_lemma [] st t ht
    rw [hrect _ hmem]
    exact hhead

/-- Column-initialisation loop specification: given enough rows, it succeeds,
preserves all dimensions, writes `i` into cell `(i, 0)` for
`start ≤ i < start + k`, and leaves every other cell unchanged. -/
theorem initColAux_spec :
    ∀ (k start : Nat) (m : List (List Nat)),
      start + k ≤ m.length →
      (∀ t < m.length, 1 ≤ (m.getD t []).length) →
      ∃ m', initColAux m start k = .ok m' ∧
        m'.length = m.length ∧
        (∀ t, (m'.getD t []).length = (m.getD t []).length) ∧
        (∀ a b, getCell m' a b =
          if start ≤ a ∧ a < start + k ∧ b = 0 then a else getCell m a b) := by
  intro k
  induction k with
  | zero =>
    intro start m _ _
    refine ⟨m, rfl, rfl, fun t => rfl, fun a b => ?_⟩
    rw [if_neg (by omega)]
  | succ k ih =>
    intro start m hk hrows
    have hstart : start < m.length := by omega
    have hrow0 : 0 < (m.getD start []).length := hrows start hstart
    have hunfold : initColAux m start (k + 1) =
        if m.length ≤ start then .error "matrix row undefined"
        else if (m.getD start []).length < 1 then .error "matrix row empty"
        else initColAux (setCell m start 0 start) (start + 1) k := rfl
    have hstep : initColAux m start (k + 1) =
        initColAux (setCell m start 0 start) (start + 1) k := by
      rw [hunfold, if_neg (by omega), if_neg (by omega)]
    obtain ⟨m', hok, hlen, hrowlen, hcells⟩ :=
      ih (start + 1) (setCell m start 0 start)
        (by rw [length_setCell]; omega)
        (fun t ht => by
          rw [rowLen_setCell]
          exact hrows t (by rwa [length_setCell] at ht))
    refine ⟨m', by rw [hstep]; exact hok,
      by rw [hlen, length_setCell],
      fun t => by rw [hrowlen, rowLen_setCell], fun a b => ?_⟩
    rw [hcells, getCell_setCell m start 0 start a b hstart hrow0]
    by_cases ha : start + 1 ≤ a ∧ a < start + 1 + k ∧ b = 0
    · rw [if_pos ha, if_pos (by omega)]
    · rw [if_neg ha]
      by_cases hb : start = a ∧ 0 = b
      · rw [if_pos hb, if_pos (by omega)]
        exact hb.1
      · rw [if_neg hb, if_neg (by omega)]

/-- Row-initialisation loop specification: writes `j` into cell `(0, j)` for
`start ≤ j < start + k`, preserving dimensions and all other cells. -/
theorem initRowAux_spec :
    ∀ (k start : Nat) (m : List (List Nat)),
      0 < m.length →
      start + k ≤ (m.getD 0 []).length →
      (initRowAux m start k).length = m.length ∧
        (∀ t, ((initRowAux m start k).getD t []).length =
          (m.getD t []).length) ∧
        (∀ a b, getCell (initRowAux m start k) a b =
          if a = 0 ∧ start ≤ b ∧ b < start + k then b else getCell m a b) := by
  intro k
  induction k with
  | zero =>
    intro start m _ _
    refine ⟨rfl, fun t => rfl, fun a b => ?_⟩
    rw [if_neg (by omega)]
    rfl
  | succ k ih =>
    intro start m hpos hcols
    have hcol : start < (m.getD 0 []).length := by omega
    have hstep : initRowAux m start (k + 1) =
        initRowAux (setCell m 0 start start) (start + 1) k := rfl
    obtain ⟨hlen, hrowlen, hcells⟩ :=
      ih (start + 1) (setCell m 0 start start)
        (by rw [length_setCell]; omega)
        (by rw [rowLen_setCell]; omega)
    rw [hstep]
    refine ⟨by rw [hlen, length_setCell],
      fun t => by rw [hrowlen, rowLen_setCell], fun a b => ?_⟩
    rw [hcells, getCell_setCell m 0 start start a b hpos hcol]
    by_cases ha : a = 0 ∧ start + 1 ≤ b ∧ b < start + 1 + k
    · rw [if_pos ha, if_pos (by omega)]
    · rw [if_neg ha]
      by_cases hb : 0 = a ∧ start = b
      · rw [if_pos hb, if_pos (by omega)]
        exact hb.2
      · rw [if_neg hb, if_neg (by omega)]

/-- Inner fill-loop specification: with the previous row correct up to column
`jp + k`, the left neighbour `(ip+1, jp)` correct and enough room, filling
columns `jp+1 … jp+k` of row `ip+1` writes exactly the textbook DP values and
leaves every other cell and all dimensions unchanged. -/
theorem fillRowAux_spec (c1 c2 : List Char) :
    ∀ (k jp : Nat) (m : List (List Nat)) (ip : Nat),
      ip + 1 < m.length →
      (∀ t < m.length, jp + 1 + k ≤ (m.getD t []).length) →
      (∀ b ≤ jp + k, getCell m ip b = levRef c1 c2 ip b) →
      getCell m (ip + 1) jp = levRef c1 c2 (ip + 1) jp →
      (fillRowAux c1 c2 m (ip + 1) (jp + 1) k).length = m.length ∧
        (∀ t, ((fillRowAux c1 c2 m (ip + 1) (jp + 1) k).getD t []).length =
          (m.getD t []).length) ∧
        (∀ a b, getCell (fillRowAux c1 c2 m (ip + 1) (jp + 1) k) a b =
          if a = ip + 1 ∧ jp + 1 ≤ b ∧ b < jp + 1 + k then levRef c1 c2 a b
          else getCell m a b) := by
  intro k
  induction k with
  | zero =>
    intro jp m ip _ _ _ _
    refine ⟨rfl, fun t => rfl, fun a b => ?_⟩
    rw [if_neg (by omega)]
    rfl
  | succ k ih =>
    intro jp m ip hlen hcols hrow hleft
    have hjlt : jp + 1 < (m.getD (ip + 1) []).length := by
      have := hcols (ip + 1) hlen
      omega
    have hfill : fillCell c1 c2 m (ip + 1) (jp + 1) =
        setCell m (ip + 1) (jp + 1) (levRef c1 c2 (ip + 1) (jp + 1)) := by
      unfold fillCell
      simp only [Nat.add_sub_cancel]
      rw [hrow jp (by omega), hrow (jp + 1) (by omega), hleft,
        levRef_succ_succ]
      split <;> rfl
    have hm1len : (fillCell c1 c2 m (ip + 1) (jp + 1)).length = m.length := by
      rw [hfill, length_setCell]
    have hm1rows : ∀ t,
        ((fillCell c1 c2 m (ip + 1) (jp + 1)).getD t []).length =
          (m.getD t []).length := fun t => by
      rw [hfill, rowLen_setCell]
    have hm1cells : ∀ a b, getCell (fillCell c1 c2 m (ip + 1) (jp + 1)) a b =
        if ip + 1 = a ∧ jp + 1 = b then levRef c1 c2 (ip + 1) (jp + 1)
        else getCell m a b := fun a b => by
      rw [hfill, getCell_setCell m (ip + 1) (jp + 1) _ a b hlen hjlt]
    have hstep : fillRowAux c1 c2 m (ip + 1) (jp + 1) (k + 1) =
        fillRowAux c1 c2 (fillCell c1 c2 m (ip + 1) (jp + 1)) (ip + 1)
          (jp + 1 + 1) k := rfl
    obtain ⟨hlen', hrows', hcells'⟩ :=
      ih (jp + 1) (fillCell c1 c2 m (ip + 1) (jp + 1)) ip
        (by rw [hm1len]; exact hlen)
        (fun t ht => by
          rw [hm1rows]
          have := hcols t (by rwa [hm1len] at ht)
          omega)
        (fun b hb => by
          rw [hm1cells]
          rw [if_neg (by omega)]
          exact hrow b (by omega))
        (by
          rw [hm1cells]
          rw [if_pos ⟨rfl, rfl⟩])
    rw [hstep]
    refine ⟨by rw [hlen', hm1len], fun t => by rw [hrows', hm1rows],
      fun a b => ?_⟩
    rw [hcells' a b]
    by_cases h1 : a = ip + 1 ∧ jp + 1 + 1 ≤ b ∧ b < jp + 1 + 1 + k
    · rw [if_pos h1, if_pos (by omega)]
    · rw [if_neg h1, hm1cells]
      by_cases h2 : ip + 1 = a ∧ jp + 1 = b
      · rw [if_pos h2, if_pos (by omega), ← h2.1, ← h2.2]
      · rw [if_neg h2, if_neg (by omega)]

/-- Outer fill-loop specification: with rows `0 … ip` correct and column 0
correct for all upcoming rows, filling rows `ip+1 … ip+k` makes every cell
`(a, b)` with `a ≤ ip + k`, `b ≤ c2.length` hold its textbook DP value. -/
theorem fillAux_spec (c1 c2 : List Char) :
    ∀ (k ip : Nat) (m : List (List Nat)),
      ip + k + 1 ≤ m.length →
      (∀ t < m.length, c2.length + 1 ≤ (m.getD t []).length) →
      (∀ a ≤ ip, ∀ b ≤ c2.length, getCell m a b = levRef c1 c2 a b) →
      (∀ a ≤ ip + k, getCell m a 0 = levRef c1 c2 a 0) →
      (fillAux c1 c2 m (ip + 1) k).length = m.length ∧
        (∀ t, ((fillAux c1 c2 m (ip + 1) k).getD t []).length =
          (m.getD t []).length) ∧
        (∀ a ≤ ip + k, ∀ b ≤ c2.length,
          getCell (fillAux c1 c2 m (ip + 1) k) a b = levRef c1 c2 a b) := by
  intro k
  induction k with
  | zero =>
    intro ip m _ _ hdone _
    exact ⟨rfl, fun t => rfl, fun a ha b hb => hdone a (by omega) b hb⟩
  | succ k ih =>
    intro ip m hlen hcols hdone hcol0
    have hlen1 : ip + 1 < m.length := by omega
    obtain ⟨hrlen, hrrows, hrcells⟩ :=
      fillRowAux_spec c1 c2 c2.length 0 m ip hlen1
        (fun t ht => by have := hcols t ht; omega)
        (fun b hb => hdone ip (by omega) b (by omega))
        (hcol0 (ip + 1) (by omega))
    have hstep : fillAux c1 c2 m (ip + 1) (k + 1) =
        fillAux c1 c2 (fillRowAux c1 c2 m (ip + 1) 1 c2.length)
          (ip + 1 + 1) k := rfl
    obtain ⟨hlen', hrows'', hcells'⟩ :=
      ih (ip + 1) (fillRowAux c1 c2 m (ip + 1) 1 c2.length)
        (by rw [hrlen]; omega)
        (fun t ht => by
          rw [hrrows]
          exact hcols t (by rwa [hrlen] at ht))
        (fun a ha b hb => by
          rw [hrcells]
          by_cases hb0 : a = ip + 1 ∧ 1 ≤ b ∧ b < 1 + c2.length
          · rw [if_pos hb0]
          · rw [if_neg hb0]
            by_cases haip : a ≤ ip
            · exact hdone a haip b hb
            · have ha1 : a = ip + 1 := by omega
              have hb0' : b = 0 := by omega
              rw [ha1, hb0']
              exact hcol0 (ip + 1) (by omega))
        (fun a ha => by
          rw [hrcells]
          rw [if_neg (by omega)]
          exact hcol0 a (by omega))
    rw [hstep]
    exact ⟨by rw [hlen', hrlen], fun t => by rw [hrows'', hrrows],
      fun a ha b hb => hcells' a (by omega) b hb⟩

/-- Textbook base column, all `i`: distance to the empty prefix is `i`. -/
theorem levRef_i_zero (c1 c2 : List Char) : ∀ i, levRef c1 c2 i 0 = i := by
  intro i
  cases i <;> rfl

/-- The textbook DP table is symmetric in its two strings. -/
theorem levRef_symm (c1 c2 : List Char) :
    ∀ i j, levRef c1 c2 i j = levRef c2 c1 j i := by
  intro i
  induction i with
  | zero =>
    intro j
    rw [levRef_zero, levRef_i_zero]
  | succ i ihi =>
    intro j
    induction j with
    | zero => rw [levRef_i_zero, levRef_zero]
    | succ j ihj =>
      rw [levRef_succ_succ, levRef_succ_succ, ← ihi j, ← ihi (j + 1), ← ihj]
      by_cases hc : c1.getD i default = c2.getD j default
      · rw [if_pos hc, if_pos hc.symm]
      · rw [if_neg hc, if_neg (fun h => hc h.symm),
          Nat.min_comm (levRef c1 c2 (i + 1) j + 1) (levRef c1 c2 i (j + 1) + 1)]

/-- The post-swap body of the optimised Levenshtein computation succeeds on
every rectangular prior state and returns exactly the textbook DP value,
with a final matrix of the dimensions delivered by `getLevenshteinMatrix`. -/
theorem levCompute_spec (st : List (List Nat)) (s1 s2 : String)
    (hrect : Rect st) (hm : 1 ≤ s1.length) (hn : 1 ≤ s2.length) :
    ∃ matf, levCompute st s1 s2 =
        .ok (levRef s1.data s2.data s1.length s2.length, matf) ∧
      matf.length =
        (getLevenshteinMatrix st (s1.length + 1) (s2.length + 1)).length ∧
      (∀ t, (matf.getD t []).length =
        ((getLevenshteinMatrix st (s1.length + 1) (s2.length + 1)).getD
          t []).length) := by
  have hd1 : s1.data.length = s1.length := rfl
  have hd2 : s2.data.length = s2.length := rfl
  obtain ⟨hrows, hcols⟩ :=
    getLevenshteinMatrix_dims st (s1.length + 1) (s2.length + 1) hrect
      (by omega)
  obtain ⟨matc, hok, hclen, hcrows, hccells⟩ :=
    initColAux_spec (s1.length + 1) 0
      (getLevenshteinMatrix st (s1.length + 1) (s2.length + 1))
      (by omega)
      (fun t ht => by have := hcols t ht; omega)
  obtain ⟨hrlen, hrrows, hrcells⟩ :=
    initRowAux_spec (s2.length + 1) 0 matc
      (by omega)
      (by rw [hcrows]; have := hcols 0 (by omega); omega)
  obtain ⟨hflen, hfrows, hfcells⟩ :=
    fillAux_spec s1.data s2.data s1.length 0
      (initRowAux matc 0 (s2.length + 1))
      (by rw [hrlen, hclen]; omega)
      (fun t ht => by
        rw [hrrows, hcrows, hd2]
        rw [hrlen, hclen] at ht
        exact hcols t ht)
      (fun a ha b hb => by
        have ha0 : a = 0 := by omega
        subst ha0
        rw [hrcells, if_pos ⟨rfl, by omega, by omega⟩, levRef_zero])
      (fun a ha => by
        rw [hrcells]
        by_cases ha0 : a = 0
        · subst ha0
          rw [if_pos ⟨rfl, by omega, by omega⟩, levRef_zero]
        · rw [if_neg (by omega), hccells,
            if_pos ⟨by omega, by omega, rfl⟩, levRef_i_zero])
  refine ⟨fillAux s1.data s2.data (initRowAux matc 0 (s2.length + 1)) 1
    s1.length, ?_, ?_, ?_⟩
  · have hval : getCell (fillAux s1.data s2.data
        (initRowAux matc 0 (s2.length + 1)) 1 s1.length) s1.length s2.length =
        levRef s1.data s2.data s1.length s2.length := by
      have := hfcells s1.length (by omega) s2.length (by omega)
      simpa using this
    simp only [levCompute]
    rw [if_neg (by omega), hok]
    simp only []
    rw [if_neg (by omega), if_neg (by rw [hcrows]; have := hcols 0 (by omega); omega)]
    rw [hval]
  · rw [show (1 : Nat) = 0 + 1 from rfl, hflen, hrlen, hclen]
  · intro t
    rw [show (1 : Nat) = 0 + 1 from rfl, hfrows, hrrows, hcrows]

/-- On the diagonal of two strings that agree position-wise, the textbook
distance is zero. -/
theorem levRef_diag (c1 c2 : List Char) :
    ∀ i, (∀ k < i, c1.getD k default = c2.getD k default) →
      levRef c1 c2 i i = 0 := by
  intro i
  induction i with
  | zero => intro _; rfl
  | succ i ih =>
    intro h
    rw [levRef_succ_succ, if_pos (h i (by omega))]
    exact ih (fun k hk => h k (by omega))

/-- On every rectangular prior state the optimised computation never throws
and returns exactly the textbook edit distance of its two arguments. -/
theorem calculate_eq_textbook (st : List (List Nat)) (a b : String)
    (hrect : Rect st) :
    (calculateLevenshteinDistanceOptimized st a b).map Prod.fst =
      .ok (levenshteinFresh a b) := by
  unfold calculateLevenshteinDistanceOptimized
  by_cases hab : a = b
  · rw [if_pos hab]
    subst hab
    have h0 : levenshteinFresh a a = 0 :=
      levRef_diag a.data a.data a.length (fun k _ => rfl)
    rw [h0]
    rfl
  · rw [if_neg hab]
    by_cases ha0 : a.length = 0
    · rw [if_pos ha0]
      have hv : levenshteinFresh a b = b.length := by
        unfold levenshteinFresh
        rw [ha0, levRef_zero]
      rw [hv]
      rfl
    · rw [if_neg ha0]
      by_cases hb0 : b.length = 0
      · rw [if_pos hb0]
        have hv : levenshteinFresh a b = a.length := by
          unfold levenshteinFresh
          rw [hb0, levRef_i_zero]
        rw [hv]
        rfl
      · rw [if_neg hb0]
        by_cases hsw : a.length > b.length
        · rw [if_pos hsw]
          obtain ⟨matf, heq, _, _⟩ :=
            levCompute_spec st b a hrect (by omega) (by omega)
          rw [heq]
          have hv : levRef b.data a.data b.length a.length =
              levenshteinFresh a b := by
            unfold levenshteinFresh
            rw [levRef_symm]
          rw [show (Except.ok (levRef b.data a.data b.length a.length, matf) :
              Except String (Nat × List (List Nat))).map Prod.fst =
              .ok (levRef b.data a.data b.length a.length) from rfl, hv]
        · rw [if_neg hsw]
          obtain ⟨matf, heq, _, _⟩ :=
            levCompute_spec st a b hrect (by omega) (by omega)
          rw [heq]
          rfl

theorem rect_of_rowLens (m₁ m₂ : List (List Nat))
    (hlen : m₁.length = m₂.length)
    (hrows : ∀ t, (m₁.getD t []).length = (m₂.getD t []).length)
    (h2 : Rect m₂) : Rect m₁ := by
  intro r hr
  obtain ⟨⟨t, ht⟩, hget⟩ := List.mem_iff_get.mp hr
  have hgd : m₁.getD t [] = r := by
    rw [List.getD_eq_getElem m₁ [] ht]
    simpa using hget
  have ht2 : t < m₂.length := by omega
  have hmem2 : m₂.getD t [] ∈ m₂ := getD_mem_lemma [] m₂ t ht2
  rw [← hgd, hrows t, h2 _ hmem2, headD_eq_getD_zero, headD_eq_getD_zero,
    hrows 0]

theorem rect_getLevenshteinMatrix (st : List (List Nat)) (rows cols : Nat)
    (hrect : Rect st) : Rect (getLevenshteinMatrix st rows cols) := by
  unfold getLevenshteinMatrix
  split
  · intro r hr
    rw [List.eq_of_mem_replicate hr]
    cases rows with
    | zero => simp at hr
    | succ n => rfl
  · exact hrect

/-- Rectangularity of the scratch matrix is preserved by every call: states
reachable from the initial empty matrix stay rectangular, justifying the
`Rect` hypothesis of the main correctness theorems. -/
theorem calculate_preserves_rect (st : List (List Nat)) (a b : String)
    (hrect : Rect st) (r : Nat) (st' : List (List Nat))
    (h : calculateLevenshteinDistanceOptimized st a b = .ok (r, st')) :
    Rect st' := by
  unfold calculateLevenshteinDistanceOptimized at h
  by_cases hab : a = b
  · rw [if_pos hab] at h
    cases h
    exact hrect
  · rw [if_neg hab] at h
    by_cases ha0 : a.length = 0
    · rw [if_pos ha0] at h
      cases h
      exact hrect
    · rw [if_neg ha0] at h
      by_cases hb0 : b.length = 0
      · rw [if_pos hb0] at h
        cases h
        exact hrect
      · rw [if_neg hb0] at h
        by_cases hsw : a.length > b.length
        · rw [if_pos hsw] at h
          obtain ⟨matf, heq, hmlen, hmrows⟩ :=
            levCompute_spec st b a hrect (by omega) (by omega)
          rw [heq] at h
          cases h
          exact rect_of_rowLens _ _ hmlen hmrows
            (rect_getLevenshteinMatrix st _ _ hrect)
        · rw [if_neg hsw] at h
          obtain ⟨matf, heq, hmlen, hmrows⟩ :=
            levCompute_spec st a b hrect (by omega) (by omega)
          rw [heq] at h
          cases h
          exact rect_of_rowLens _ _ hmlen hmrows
            (rect_getLevenshteinMatrix st _ _ hrect)

/-! ## Claim theorems -/

/-- C4: for every pair of strings and every rectangular prior scratch-matrix
state (the invariant holding on all reachable states, see
`calculate_preserves_rect`), `calculateLevenshteinDistanceOptimized` returns
exactly the classic textbook dynamic-programming edit distance computed on a
fresh matrix; in particular the result is symmetric, `0` on equal strings,
and `length a` against the empty string, and is never changed by the reuse
of the scratch matrix. -/
theorem levenshtein_matches_fresh_textbook (st : List (List Nat))
    (a b : String) (hrect : Rect st) :
    (calculateLevenshteinDistanceOptimized st a b).map Prod.fst =
        .ok (levenshteinFresh a b) ∧
      levenshteinFresh a b = levenshteinFresh b a ∧
      (a = b → levenshteinFresh a b = 0) ∧
      levenshteinFresh a "" = a.length := by
  refine ⟨calculate_eq_textbook st a b hrect, ?_, ?_, ?_⟩
  · unfold levenshteinFresh
    exact levRef_symm _ _ _ _
  · intro hab
    subst hab
    exact levRef_diag a.data a.data a.length (fun k _ => rfl)
  · have h0 : ("" : String).length = 0 := rfl
    unfold levenshteinFresh
    rw [h0]
    exact levRef_i_zero _ _ _

/-- Witness for C4 at a concrete junk prior state and concrete strings. -/
theorem levenshtein_matches_fresh_textbook_witness :
    Rect [[7, 7, 7], [7, 7, 7]] ∧
      ((calculateLevenshteinDistanceOptimized [[7, 7, 7], [7, 7, 7]] "kitten"
            "sitting").map Prod.fst = .ok (levenshteinFresh "kitten" "sitting") ∧
        levenshteinFresh "kitten" "sitting" =
          levenshteinFresh "sitting" "kitten" ∧
        ("kitten" = "sitting" → levenshteinFresh "kitten" "sitting" = 0) ∧
        levenshteinFresh "kitten" "" = "kitten".length) :=
  ⟨by decide, levenshtein_matches_fresh_textbook [[7, 7, 7], [7, 7, 7]]
    "kitten" "sitting" (by decide)⟩

/-- C7 counterexample: the scratch matrix is not sized to the maximum
requirement seen so far and is not growth-only.  A call on `"abcd"` vs a
9-character string needs (and creates) 5 rows; the next call on `"ab"` vs an
11-character string needs 12 columns, so the matrix is replaced by a fresh
3-row matrix: the row count shrinks from 5 to 3, below the maximum row
requirement 5 seen so far. -/
theorem levenshteinMatrix_row_count_shrinks :
    ((calculateLevenshteinDistanceOptimized [] "abcd" "abcdefghi").map
        (fun p => p.2.length) = .ok 5) ∧
      (((calculateLevenshteinDistanceOptimized [] "abcd" "abcdefghi").bind
          (fun p => calculateLevenshteinDistanceOptimized p.2 "ab"
            "abcdefghijk")).map (fun p => p.2.length) = .ok 3) ∧
      3 < "abcd".length + 1 := by
  refine ⟨by decide, by decide, by decide⟩

/-- C7 (amended): after every call the scratch matrix is at least as large as
the current call's requirement in both dimensions, and it is either reused
unchanged or replaced by a fresh matrix sized exactly to the current call
(which may shrink a dimension below an earlier call's requirement). -/
theorem getLevenshteinMatrix_fits_current_call (m : List (List Nat))
    (rows cols : Nat) (hr : 1 ≤ rows) :
    rows ≤ (getLevenshteinMatrix m rows cols).length ∧
      cols ≤ ((getLevenshteinMatrix m rows cols).headD []).length ∧
      (getLevenshteinMatrix m rows cols = m ∨
        getLevenshteinMatrix m rows cols =
          List.replicate rows (List.replicate cols 0)) := by
  unfold getLevenshteinMatrix
  split
  · refine ⟨by simp, ?_, Or.inr rfl⟩
    cases rows with
    | zero => omega
    | succ n => simp [List.replicate_succ]
  · next hcond =>
    push_neg at hcond
    obtain ⟨h1, h2, _⟩ := hcond
    refine ⟨by omega, ?_, Or.inl rfl⟩
    exact h2 (by omega)

/-- Witness for C7's amended theorem at an empty prior matrix. -/
theorem getLevenshteinMatrix_fits_current_call_witness :
    1 ≤ 2 ∧
      (2 ≤ (getLevenshteinMatrix [] 2 3).length ∧
        3 ≤ ((getLevenshteinMatrix [] 2 3).headD []).length ∧
        (getLevenshteinMatrix [] 2 3 = [] ∨
          getLevenshteinMatrix [] 2 3 =
            List.replicate 2 (List.replicate 3 0))) :=
  ⟨by decide, getLevenshteinMatrix_fits_current_call [] 2 3 (by decide)⟩

/-- C2 (code bug): the fallback `vectorScore` is `1 / (1 + cosine)`, which is
strictly decreasing in the cosine similarity, not increasing: the candidate
identical to the query (cosine 1) scores `1/2` while an orthogonal candidate
(cosine 0) scores `1`, so the fallback ranking is inverted relative to the
native higher-is-closer semantics the spec requires. -/
theorem fallbackVectorScore_inverts_cosine :
    cosineSimilarity [1, 0] [0, 1] < cosineSimilarity [1, 0] [1, 0] ∧
      fallbackVectorScore [1, 0] [1, 0] < fallbackVectorScore [1, 0] [0, 1] := by
  have h1 : cosineSimilarity [1, 0] [1, 0] = 1 := by
    simp [cosineSimilarity]
  have h2 : cosineSimilarity [1, 0] [0, 1] = 0 := by
    simp [cosineSimilarity]
  have h3 : fallbackVectorScore [1, 0] [1, 0] = 1 / 2 := by
    rw [fallbackVectorScore, if_neg (by simp), h1]
    norm_num
  have h4 : fallbackVectorScore [1, 0] [0, 1] = 1 := by
    rw [fallbackVectorScore, if_neg (by simp), h2]
    norm_num
  rw [h1, h2, h3, h4]
  norm_num

/-- C1 counterexample: `searchMemories` applies no acceptance rule at all.
With `hasVectorSearch = false`, query embedding `[1, 0]` and a single stored
memory whose embedding `[0, 1]` has cosine similarity 0 — below both the
claim's `match_threshold` (0.95 here) and its 0.3 rescue bound, with no
keyword boost in the memory path — the candidate is still returned. -/
theorem searchMemories_fallback_ignores_threshold :
    (searchMemoriesModel false (.ok []) [1, 0] [⟨"m1", [0, 1]⟩] 1).1 =
        .ok [⟨"m1", [0, 1]⟩] ∧
      cosineSimilarity [1, 0] [0, 1] = 0 ∧ (0 : ℝ) < 95 / 100 := by
  refine ⟨?_, by simp [cosineSimilarity], by norm_num⟩
  simp [searchMemoriesModel, searchMemoriesFallback, List.insertionSort,
    List.orderedInsert]

/-- C1 (amended): in the knowledge-search paths (both native and fallback of
`searchKnowledge`), among the scored candidates entering the shared pipeline
a candidate appears in the output iff its `vectorScore` is at least the
threshold, or its `keywordScore` exceeds 1.0 and its `vectorScore` is at
least 0.3, and the output is ordered by descending
`combinedScore = vectorScore * keywordScore` with `keywordScore` as in
`keywordScore`; memory searches (`searchMemories`) apply no acceptance rule
and no keyword scoring. -/
theorem knowledgeSearchPipeline_accepts_and_orders (searchText : Option String)
    (threshold : ℚ) (cands : List ScoredKDoc) :
    (∀ c, c ∈ knowledgeSearchPipeline searchText threshold cands ↔
        (c ∈ cands ∧ (threshold ≤ c.vectorScore ∨
          (1 < keywordScore searchText c.doc ∧ 3 / 10 ≤ c.vectorScore)))) ∧
      List.Sorted
        (fun x y => combinedScore searchText y ≤ combinedScore searchText x)
        (knowledgeSearchPipeline searchText threshold cands) := by
  constructor
  · intro c
    unfold knowledgeSearchPipeline
    rw [List.mem_insertionSort, List.mem_filter]
    unfold acceptCandidate
    simp
  · unfold knowledgeSearchPipeline
    haveI : IsTotal ScoredKDoc
        (fun x y => combinedScore searchText y ≤ combinedScore searchText x) :=
      ⟨fun a b => le_total _ _⟩
    haveI : IsTrans ScoredKDoc
        (fun x y => combinedScore searchText y ≤ combinedScore searchText x) :=
      ⟨fun a b c h1 h2 => le_trans h2 h1⟩
    exact List.sorted_insertionSort _ _

/-! ### Cache helper lemmas -/

theorem setCacheModel_append (s0 : List CacheEntry) (now : Nat)
    (key agentId value : String)
    (h : ∀ e ∈ s0, ¬(e.key = key ∧ e.agentId = agentId)) :
    setCacheModel s0 now key agentId value =
      s0 ++ [⟨key, agentId, value, now, now + ttlMs⟩] := by
  induction s0 with
  | nil => rfl
  | cons e es ih =>
    have he := h e (List.mem_cons_self e es)
    have hcond : (e.key == key && e.agentId == agentId) = false := by
      by_cases h1 : e.key = key
      · by_cases h2 : e.agentId = agentId
        · exact absurd ⟨h1, h2⟩ he
        · simp [h2]
      · simp [h1]
    simp only [setCacheModel, hcond, Bool.false_eq_true, if_false,
      List.cons_append, List.cons.injEq, true_and]
    exact ih (fun x hx => h x (List.mem_cons_of_mem e hx))

theorem getCacheModel_none_of_no_key (s : List CacheEntry) (now : Nat)
    (key agentId : String)
    (h : ∀ e ∈ s, ¬(e.key = key ∧ e.agentId = agentId)) :
    getCacheModel s now key agentId = none := by
  unfold getCacheModel
  have h0 : s.find? (fun e =>
      e.key == key && e.agentId == agentId && decide (now < e.expiresAt)) =
      none := by
    rw [List.find?_eq_none]
    intro e he
    have hne := h e he
    simp only [Bool.and_eq_true, beq_iff_eq, decide_eq_true_eq]
    intro hcon
    exact hne ⟨hcon.1.1, hcon.1.2⟩
  rw [h0]
  rfl

theorem getCacheModel_append_entry (s0 : List CacheEntry) (entry : CacheEntry)
    (now : Nat) (key agentId : String)
    (h : ∀ e ∈ s0, ¬(e.key = key ∧ e.agentId = agentId)) :
    getCacheModel (s0 ++ [entry]) now key agentId =
      if entry.key == key && entry.agentId == agentId &&
          decide (now < entry.expiresAt)
      then some entry.value else none := by
  induction s0 with
  | nil =>
    unfold getCacheModel
    simp only [List.nil_append]
    by_cases hp : (entry.key == key && entry.agentId == agentId &&
        decide (now < entry.expiresAt)) = true
    · simp [List.find?, hp]
    · simp [List.find?, hp]
  | cons e es ih =>
    have he := h e (List.mem_cons_self e es)
    have hcond : (e.key == key && e.agentId == agentId &&
        decide (now < e.expiresAt)) = false := by
      by_cases h1 : e.key = key
      · by_cases h2 : e.agentId = agentId
        · exact absurd ⟨h1, h2⟩ he
        · simp [h2]
      · simp [h1]
    unfold getCacheModel
    rw [List.cons_append, List.find?_cons_of_neg _ (by simp [hcond])]
    exact ih (fun x hx => h x (List.mem_cons_of_mem e hx))

/-! ### Error-handling and capability claim theorems -/

/-- C3: while the capability flag reads native-available, a native
vector-search failure is caught by both `searchMemories` and
`searchKnowledge`, which return the fallback path's results instead of
propagating the native error. -/
theorem native_failure_returns_fallback_results
    (e1 e2 : String) (q : List ℝ) (cands : List MemDoc) (cnt : Nat)
    (store : List CacheEntry) (now : Nat) (agentId : String)
    (searchText : Option String) (kcnt : Nat)
    (fbDocs : List KnowledgeResultDoc)
    (serialize : List RAGItemM → String) (parse : String → List RAGItemM)
    (hmiss : getCacheModel store now (cacheKeyOf agentId searchText) agentId =
      none) :
    (searchMemoriesModel true (.error e1) q cands cnt).1 =
        .ok (searchMemoriesFallback q cands cnt) ∧
      (searchKnowledgeModel store now agentId searchText kcnt true
          (.error e2) (.ok fbDocs) serialize parse).1 =
        .ok (finishKnowledgeSearch store now (cacheKeyOf agentId searchText)
          agentId serialize fbDocs) := by
  constructor
  · simp [searchMemoriesModel]
  · unfold searchKnowledgeModel
    rw [hmiss]
    rfl

/-- Witness for C3 at a concrete empty store and failing native oracles. -/
theorem native_failure_returns_fallback_results_witness :
    getCacheModel [] 0 (cacheKeyOf "a" none) "a" = none ∧
      ((searchMemoriesModel true (.error "boom") [] [] 1).1 =
          .ok (searchMemoriesFallback [] [] 1) ∧
        (searchKnowledgeModel [] 0 "a" none 1 true (.error "boom2")
            (.ok []) (fun _ => "ser") (fun _ => [])).1 =
          .ok (finishKnowledgeSearch [] 0 (cacheKeyOf "a" none) "a"
            (fun _ => "ser") [])) :=
  ⟨by decide, native_failure_returns_fallback_results "boom" "boom2" [] [] 1
    [] 0 "a" none 1 [] (fun _ => "ser") (fun _ => []) (by decide)⟩

/-- C6 counterexample: `searchMemoriesByEmbedding` issues the native
`$search`/`vectorSearch` aggregation even when the capability flag reads
fallback-only — it never consults the flag and has no fallback. -/
theorem searchMemoriesByEmbedding_native_despite_fallback_flag :
    IssuedQuery.nativeVectorSearch "memories" 20 ∈
        (searchMemoriesByEmbeddingModel false (.ok []) none).2 ∧
      (searchMemoriesByEmbeddingModel false (.ok []) none).1 = .ok [] := by
  constructor
  · simp [searchMemoriesByEmbeddingModel]
  · rfl

/-- C6 (amended): once the capability flag is fallback-only, `searchMemories`
and `searchKnowledge` never issue a native vector-search query and take the
fallback path directly; `searchMemoriesByEmbedding`, however, always issues
the native query regardless of the flag. -/
theorem fallback_flag_gates_memories_and_knowledge_search
    (native : Except String (List MemDoc)) (q : List ℝ)
    (cands : List MemDoc) (cnt : Nat)
    (store : List CacheEntry) (now : Nat) (agentId : String)
    (searchText : Option String) (kcnt : Nat)
    (nk fk : Except String (List KnowledgeResultDoc))
    (serialize : List RAGItemM → String) (parse : String → List RAGItemM)
    (coll : String) (numC : Nat) :
    IssuedQuery.nativeVectorSearch coll numC ∉
        (searchMemoriesModel false native q cands cnt).2 ∧
      IssuedQuery.nativeVectorSearch coll numC ∉
        (searchKnowledgeModel store now agentId searchText kcnt false nk fk
          serialize parse).2 ∧
      (∀ count, IssuedQuery.nativeVectorSearch "memories" (count.getD 10 * 2) ∈
        (searchMemoriesByEmbeddingModel false native count).2) := by
  refine ⟨by simp [searchMemoriesModel], ?_,
    fun count => by simp [searchMemoriesByEmbeddingModel]⟩
  unfold searchKnowledgeModel
  cases hg : getCacheModel store now (cacheKeyOf agentId searchText) agentId
  · cases fk <;> simp
  · simp

/-- C9: a `searchKnowledge` call whose cache key was populated by an
identical earlier call less than the 24-hour TTL ago returns the parse of
the previously serialised result without issuing any store query; once the
TTL has elapsed the cached value is no longer returned, the pipeline runs
again and the fresh result is written back to the cache. -/
theorem searchKnowledge_cache_ttl
    (s0 : List CacheEntry) (t1 t2 : Nat) (agentId : String)
    (searchText : Option String) (kcnt kcnt2 : Nat) (hvs : Bool)
    (native fallback n2 f2 : Except String (List KnowledgeResultDoc))
    (serialize : List RAGItemM → String) (parse : String → List RAGItemM)
    (r1 : List RAGItemM) (s1 : List CacheEntry) (tr : List IssuedQuery)
    (h0 : ∀ e ∈ s0,
      ¬(e.key = cacheKeyOf agentId searchText ∧ e.agentId = agentId))
    (hrun : searchKnowledgeModel s0 t1 agentId searchText kcnt hvs native
      fallback serialize parse = (.ok (r1, s1), tr)) :
    (t2 < t1 + ttlMs →
      ∀ (hvs2 : Bool) (na fa : Except String (List KnowledgeResultDoc)),
        searchKnowledgeModel s1 t2 agentId searchText kcnt2 hvs2 na fa
          serialize parse = (.ok (parse (serialize r1), s1), [])) ∧
    (t1 + ttlMs ≤ t2 →
      getCacheModel s1 t2 (cacheKeyOf agentId searchText) agentId = none ∧
      (∀ docs2, searchKnowledgeModel s1 t2 agentId searchText kcnt2 false n2
          (.ok docs2) serialize parse =
        (.ok (finishKnowledgeSearch s1 t2 (cacheKeyOf agentId searchText)
            agentId serialize docs2), [.fallbackAggregate "knowledge"])) ∧
      (∀ docs2, searchKnowledgeModel s1 t2 agentId searchText kcnt2 true
          (.ok docs2) f2 serialize parse =
        (.ok (finishKnowledgeSearch s1 t2 (cacheKeyOf agentId searchText)
            agentId serialize docs2),
          [.nativeVectorSearch "knowledge" (kcnt2 * 2)]))) := by
  have hmiss0 : getCacheModel s0 t1 (cacheKeyOf agentId searchText) agentId =
      none := getCacheModel_none_of_no_key s0 t1 _ _ h0
  unfold searchKnowledgeModel at hrun
  rw [hmiss0] at hrun
  have hs1 : s1 = s0 ++ [⟨cacheKeyOf agentId searchText, agentId,
      serialize r1, t1, t1 + ttlMs⟩] := by
    cases hvs with
    | true =>
      cases native with
      | ok docs =>
        have hrun' : ((.ok (docs.map mapRAGItem,
            setCacheModel s0 t1 (cacheKeyOf agentId searchText) agentId
              (serialize (docs.map mapRAGItem))),
            [IssuedQuery.nativeVectorSearch "knowledge" (kcnt * 2)]) :
            Except String (List RAGItemM × List CacheEntry) ×
              List IssuedQuery) = (.ok (r1, s1), tr) := hrun
        cases hrun'
        exact setCacheModel_append s0 t1 _ _ _ h0
      | error e =>
        cases fallback with
        | ok docs =>
          have hrun' : ((.ok (docs.map mapRAGItem,
              setCacheModel s0 t1 (cacheKeyOf agentId searchText) agentId
                (serialize (docs.map mapRAGItem))),
              [IssuedQuery.nativeVectorSearch "knowledge" (kcnt * 2),
                IssuedQuery.fallbackAggregate "knowledge"]) :
              Except String (List RAGItemM × List CacheEntry) ×
                List IssuedQuery) = (.ok (r1, s1), tr) := hrun
          cases hrun'
          exact setCacheModel_append s0 t1 _ _ _ h0
        | error e2 =>
          have hrun' : ((.error e2,
              [IssuedQuery.nativeVectorSearch "knowledge" (kcnt * 2),
                IssuedQuery.fallbackAggregate "knowledge"]) :
              Except String (List RAGItemM × List CacheEntry) ×
                List IssuedQuery) = (.ok (r1, s1), tr) := hrun
          simp at hrun'
    | false =>
      cases fallback with
      | ok docs =>
        have hrun' : ((.ok (docs.map mapRAGItem,
            setCacheModel s0 t1 (cacheKeyOf agentId searchText) agentId
              (serialize (docs.map mapRAGItem))),
            [IssuedQuery.fallbackAggregate "knowledge"]) :
            Except String (List RAGItemM × List CacheEntry) ×
              List IssuedQuery) = (.ok (r1, s1), tr) := hrun
        cases hrun'
        exact setCacheModel_append s0 t1 _ _ _ h0
      | error e2 =>
        have hrun' : ((.error e2,
            [IssuedQuery.fallbackAggregate "knowledge"]) :
            Except String (List RAGItemM × List CacheEntry) ×
              List IssuedQuery) = (.ok (r1, s1), tr) := hrun
        simp at hrun'
  constructor
  · intro hlt hvs2 na fa
    have hhit : getCacheModel s1 t2 (cacheKeyOf agentId searchText) agentId =
        some (serialize r1) := by
      rw [hs1, getCacheModel_append_entry s0 _ t2 _ _ h0]
      rw [if_pos (by simp [hlt])]
    unfold searchKnowledgeModel
    rw [hhit]
  · intro hge
    have hmiss1 : getCacheModel s1 t2 (cacheKeyOf agentId searchText) agentId =
        none := by
      rw [hs1, getCacheModel_append_entry s0 _ t2 _ _ h0]
      rw [if_neg (by simp; omega)]
    refine ⟨hmiss1, fun docs2 => ?_, fun docs2 => ?_⟩
    · unfold searchKnowledgeModel
      rw [hmiss1]
      rfl
    · unfold searchKnowledgeModel
      rw [hmiss1]
      rfl

/-- Witness for C9: a concrete first call at `t1 = 0` populates the cache,
and the instantiated TTL dichotomy holds at `t2 = 5`. -/
theorem searchKnowledge_cache_ttl_witness :
    (∀ e ∈ ([] : List CacheEntry),
      ¬(e.key = cacheKeyOf "a" none ∧ e.agentId = "a")) ∧
    searchKnowledgeModel [] 0 "a" none 1 false (.ok []) (.ok [])
        (fun _ => "v") (fun _ => []) =
      (.ok ([], [⟨cacheKeyOf "a" none, "a", "v", 0, 0 + ttlMs⟩]),
        [.fallbackAggregate "knowledge"]) ∧
    ((5 < 0 + ttlMs →
      ∀ (hvs2 : Bool) (na fa : Except String (List KnowledgeResultDoc)),
        searchKnowledgeModel [⟨cacheKeyOf "a" none, "a", "v", 0, 0 + ttlMs⟩]
            5 "a" none 2 hvs2 na fa (fun _ => "v") (fun _ => []) =
          (.ok (([] : List RAGItemM),
            [⟨cacheKeyOf "a" none, "a", "v", 0, 0 + ttlMs⟩]), [])) ∧
    (0 + ttlMs ≤ 5 →
      getCacheModel [⟨cacheKeyOf "a" none, "a", "v", 0, 0 + ttlMs⟩] 5
          (cacheKeyOf "a" none) "a" = none ∧
      (∀ docs2, searchKnowledgeModel
          [⟨cacheKeyOf "a" none, "a", "v", 0, 0 + ttlMs⟩] 5 "a" none 2 false
          (.ok []) (.ok docs2) (fun _ => "v") (fun _ => []) =
        (.ok (finishKnowledgeSearch
            [⟨cacheKeyOf "a" none, "a", "v", 0, 0 + ttlMs⟩] 5
            (cacheKeyOf "a" none) "a" (fun _ => "v") docs2),
          [.fallbackAggregate "knowledge"])) ∧
      (∀ docs2, searchKnowledgeModel
          [⟨cacheKeyOf "a" none, "a", "v", 0, 0 + ttlMs⟩] 5 "a" none 2 true
          (.ok docs2) (.ok []) (fun _ => "v") (fun _ => []) =
        (.ok (finishKnowledgeSearch
            [⟨cacheKeyOf "a" none, "a", "v", 0, 0 + ttlMs⟩] 5
            (cacheKeyOf "a" none) "a" (fun _ => "v") docs2),
          [.nativeVectorSearch "knowledge" (2 * 2)])))) :=
  ⟨by decide, by decide,
    searchKnowledge_cache_ttl [] 0 5 "a" none 1 2 false (.ok []) (.ok [])
      (.ok []) (.ok []) (fun _ => "v") (fun _ => []) []
      [⟨cacheKeyOf "a" none, "a", "v", 0, 0 + ttlMs⟩]
      [.fallbackAggregate "knowledge"] (by decide) (by decide)⟩

/-! ### Dedup gate and `createMemory` error-handling theorems -/

/-- C5: when the embedding is present, `createMemory` runs the dedup search
with the same table, room and agent, `match_threshold = 0.95`,
`match_count = 1` and `unique = true`, and the record it persists is marked
unique exactly when the search returned zero results; when the embedding is
absent no similarity check runs and any persisted record has
`unique = true`. -/
theorem createMemory_dedup_gate
    (search : SearchParams → Except String (List MemoryWrite))
    (insert : MemoryWrite → Except String Unit)
    (m : MemoryInput) (tableName freshId : String) (nowMs : Nat)
    (evs : List CMEvent)
    (hrun : createMemoryModel (.ok ()) search insert m tableName freshId
      nowMs = .ok evs) :
    (m.embedding = none →
      (∀ p, CMEvent.searched p ∉ evs) ∧
      (∀ d, CMEvent.inserted d ∈ evs → d.unique = true)) ∧
    (∀ emb, m.embedding = some emb →
      CMEvent.searched (dedupSearchParams m tableName) ∈ evs ∧
      dedupSearchParams m tableName =
        ⟨tableName, m.roomId, m.agentId, 95 / 100, 1, true⟩ ∧
      (∀ sims, search (dedupSearchParams m tableName) = .ok sims →
        ∀ d, CMEvent.inserted d ∈ evs → (d.unique = true ↔ sims = []))) := by
  cases hemb : m.embedding with
  | some emb =>
    have hrun1 : ((match search (dedupSearchParams m tableName) with
        | .error _ =>
          Except.ok [CMEvent.searched (dedupSearchParams m tableName)]
        | .ok sims =>
          match insert (mkMemoryWrite m tableName freshId nowMs
              (sims.length == 0)) with
          | .error _ => .ok [.searched (dedupSearchParams m tableName)]
          | .ok _ =>
            .ok [.searched (dedupSearchParams m tableName),
              .inserted (mkMemoryWrite m tableName freshId nowMs
                (sims.length == 0))]) : Except String (List CMEvent)) =
        .ok evs := by
      rw [← hrun]
      unfold createMemoryModel
      rw [hemb]
    cases hsearch : search (dedupSearchParams m tableName) with
    | error e =>
      rw [hsearch] at hrun1
      have hrun2 : Except.ok [CMEvent.searched (dedupSearchParams m
          tableName)] = .ok evs := hrun1
      cases hrun2
      refine ⟨fun hn => absurd hn (by simp), fun emb' _ => ?_⟩
      refine ⟨List.mem_cons_self _ _, rfl, fun sims hsims d hd => ?_⟩
      cases hsims
    | ok sims0 =>
      rw [hsearch] at hrun1
      have hrun1' : ((match insert (mkMemoryWrite m tableName freshId nowMs
          (sims0.length == 0)) with
        | .error _ =>
          Except.ok [CMEvent.searched (dedupSearchParams m tableName)]
        | .ok _ =>
          .ok [.searched (dedupSearchParams m tableName),
            .inserted (mkMemoryWrite m tableName freshId nowMs
              (sims0.length == 0))]) : Except String (List CMEvent)) =
          .ok evs := hrun1
      cases hins : insert (mkMemoryWrite m tableName freshId nowMs
          (sims0.length == 0)) with
      | error e =>
        rw [hins] at hrun1'
        have hrun2 : Except.ok [CMEvent.searched (dedupSearchParams m
            tableName)] = .ok evs := hrun1'
        cases hrun2
        refine ⟨fun hn => absurd hn (by simp), fun emb' _ => ?_⟩
        refine ⟨List.mem_cons_self _ _, rfl, fun sims hsims d hd => ?_⟩
        simp at hd
      | ok u =>
        rw [hins] at hrun1'
        have hrun2 : Except.ok [CMEvent.searched (dedupSearchParams m
            tableName), CMEvent.inserted (mkMemoryWrite m tableName freshId
              nowMs (sims0.length == 0))] = .ok evs := hrun1'
        cases hrun2
        refine ⟨fun hn => absurd hn (by simp), fun emb' _ => ?_⟩
        refine ⟨List.mem_cons_self _ _, rfl, fun sims hsims d hd => ?_⟩
        cases hsims
        simp only [List.mem_cons, List.mem_singleton] at hd
        rcases hd with hd | hd | hd
        · cases hd
        · cases hd
          simp [mkMemoryWrite, List.length_eq_zero]
        · cases hd
  | none =>
    have hrun1 : ((match insert (mkMemoryWrite m tableName freshId nowMs
        true) with
        | .error _ => Except.ok []
        | .ok _ =>
          .ok [.inserted (mkMemoryWrite m tableName freshId nowMs true)]) :
        Except String (List CMEvent)) = .ok evs := by
      rw [← hrun]
      unfold createMemoryModel
      rw [hemb]
    cases hins : insert (mkMemoryWrite m tableName freshId nowMs true) with
    | error e =>
      rw [hins] at hrun1
      have hrun2 : (Except.ok [] : Except String (List CMEvent)) =
          .ok evs := hrun1
      cases hrun2
      refine ⟨fun _ => ⟨fun p hp => (by cases hp), fun d hd => (by cases hd)⟩,
        fun emb' hemb' => ?_⟩
      cases hemb'
    | ok u =>
      rw [hins] at hrun1
      have hrun2 : Except.ok [CMEvent.inserted (mkMemoryWrite m tableName
          freshId nowMs true)] = .ok evs := hrun1
      cases hrun2
      refine ⟨fun _ => ⟨fun p hp => ?_, fun d hd => ?_⟩,
        fun emb' hemb' => ?_⟩
      · simp at hp
      · simp only [List.mem_singleton] at hd
        cases hd
        rfl
      · cases hemb'

/-- Witness for C5: a concrete run with an embedding present, an empty dedup
search result and a succeeding insert. -/
theorem createMemory_dedup_gate_witness :
    createMemoryModel (.ok ()) (fun _ => .ok []) (fun _ => .ok ())
        ⟨none, "r", none, "u", "c", some [], none⟩ "t" "f" 0 =
      .ok [.searched ⟨"t", "r", none, 95 / 100, 1, true⟩,
        .inserted ⟨"f", "t", "c", some [], "u", "r", none, true, 0⟩] ∧
    (((some [] : Option (List ℚ)) = none →
      (∀ p, CMEvent.searched p ∉
        ([.searched ⟨"t", "r", none, 95 / 100, 1, true⟩,
          .inserted ⟨"f", "t", "c", some [], "u", "r", none, true, 0⟩] :
          List CMEvent)) ∧
      (∀ d, CMEvent.inserted d ∈
        ([.searched ⟨"t", "r", none, 95 / 100, 1, true⟩,
          .inserted ⟨"f", "t", "c", some [], "u", "r", none, true, 0⟩] :
          List CMEvent) → d.unique = true)) ∧
    (∀ emb, (some [] : Option (List ℚ)) = some emb →
      CMEvent.searched ⟨"t", "r", none, 95 / 100, 1, true⟩ ∈
        ([.searched ⟨"t", "r", none, 95 / 100, 1, true⟩,
          .inserted ⟨"f", "t", "c", some [], "u", "r", none, true, 0⟩] :
          List CMEvent) ∧
      (⟨"t", "r", none, 95 / 100, 1, true⟩ : SearchParams) =
        ⟨"t", "r", none, 95 / 100, 1, true⟩ ∧
      (∀ sims, (.ok [] : Except String (List MemoryWrite)) = .ok sims →
        ∀ d, CMEvent.inserted d ∈
          ([.searched ⟨"t", "r", none, 95 / 100, 1, true⟩,
            .inserted ⟨"f", "t", "c", some [], "u", "r", none, true, 0⟩] :
            List CMEvent) → (d.unique = true ↔ sims = [])))) :=
  ⟨by rfl,
    createMemory_dedup_gate (fun _ => .ok []) (fun _ => .ok ())
      ⟨none, "r", none, "u", "c", some [], none⟩ "t" "f" 0
      [.searched ⟨"t", "r", none, 95 / 100, 1, true⟩,
        .inserted ⟨"f", "t", "c", some [], "u", "r", none, true, 0⟩]
      (by rfl)⟩

/-- C10 counterexample: `createMemory` can raise after all —
`ensureConnection` runs outside the `try`, so a connection-establishment
failure propagates to the caller. -/
theorem createMemory_propagates_connection_error :
    createMemoryModel (.error "connection failed") (fun _ => .ok [])
        (fun _ => .ok ()) ⟨none, "r", none, "u", "c", none, none⟩ "t" "f" 0 =
      .error "connection failed" := rfl

/-- C10 (amended): provided the connection step succeeds, `createMemory`
always resolves normally — every dedup-search or insert failure is caught
and only logged — and a document counts as persisted only when its insert
succeeded, so on insert failure no memory record is persisted and the caller
cannot tell a successful write from a silently lost one. -/
theorem createMemory_resolves_when_connected
    (connection : Except String Unit)
    (search : SearchParams → Except String (List MemoryWrite))
    (insert : MemoryWrite → Except String Unit)
    (m : MemoryInput) (tableName freshId : String) (nowMs : Nat)
    (hconn : connection = .ok ()) :
    (∃ evs, createMemoryModel connection search insert m tableName freshId
      nowMs = .ok evs) ∧
    (∀ evs d, createMemoryModel connection search insert m tableName freshId
      nowMs = .ok evs → CMEvent.inserted d ∈ evs → insert d = .ok ()) := by
  subst hconn
  constructor
  · cases hemb : m.embedding with
    | some emb =>
      have hstep : createMemoryModel (.ok ()) search insert m tableName
          freshId nowMs =
          ((match search (dedupSearchParams m tableName) with
            | .error _ =>
              Except.ok [CMEvent.searched (dedupSearchParams m tableName)]
            | .ok sims =>
              match insert (mkMemoryWrite m tableName freshId nowMs
                  (sims.length == 0)) with
              | .error _ => .ok [.searched (dedupSearchParams m tableName)]
              | .ok _ =>
                .ok [.searched (dedupSearchParams m tableName),
                  .inserted (mkMemoryWrite m tableName freshId nowMs
                    (sims.length == 0))]) : Except String (List CMEvent)) := by
        unfold createMemoryModel
        rw [hemb]
      rw [hstep]
      cases search (dedupSearchParams m tableName) with
      | error e => exact ⟨_, rfl⟩
      | ok sims =>
        show ∃ evs, ((match insert (mkMemoryWrite m tableName freshId nowMs
            (sims.length == 0)) with
          | .error _ => Except.ok [CMEvent.searched (dedupSearchParams m
              tableName)]
          | .ok _ =>
            .ok [.searched (dedupSearchParams m tableName),
              .inserted (mkMemoryWrite m tableName freshId nowMs
                (sims.length == 0))]) : Except String (List CMEvent)) =
            .ok evs
        cases insert (mkMemoryWrite m tableName freshId nowMs
            (sims.length == 0)) with
        | error e => exact ⟨_, rfl⟩
        | ok u => exact ⟨_, rfl⟩
    | none =>
      have hstep : createMemoryModel (.ok ()) search insert m tableName
          freshId nowMs =
          ((match insert (mkMemoryWrite m tableName freshId nowMs true) with
            | .error _ => Except.ok []
            | .ok _ =>
              .ok [.inserted (mkMemoryWrite m tableName freshId nowMs
                true)]) : Except String (List CMEvent)) := by
        unfold createMemoryModel
        rw [hemb]
      rw [hstep]
      cases insert (mkMemoryWrite m tableName freshId nowMs true) with
      | error e => exact ⟨_, rfl⟩
      | ok u => exact ⟨_, rfl⟩
  · intro evs d hrun hd
    cases hemb : m.embedding with
    | some emb =>
      have hrun1 : ((match search (dedupSearchParams m tableName) with
          | .error _ =>
            Except.ok [CMEvent.searched (dedupSearchParams m tableName)]
          | .ok sims =>
            match insert (mkMemoryWrite m tableName freshId nowMs
                (sims.length == 0)) with
            | .error _ => .ok [.searched (dedupSearchParams m tableName)]
            | .ok _ =>
              .ok [.searched (dedupSearchParams m tableName),
                .inserted (mkMemoryWrite m tableName freshId nowMs
                  (sims.length == 0))]) : Except String (List CMEvent)) =
          .ok evs := by
        rw [← hrun]
        unfold createMemoryModel
        rw [hemb]
      cases hsearch : search (dedupSearchParams m tableName) with
      | error e =>
        rw [hsearch] at hrun1
        have hrun2 : Except.ok [CMEvent.searched (dedupSearchParams m
            tableName)] = .ok evs := hrun1
        cases hrun2
        simp at hd
      | ok sims0 =>
        rw [hsearch] at hrun1
        have hrun1' : ((match insert (mkMemoryWrite m tableName freshId nowMs
            (sims0.length == 0)) with
          | .error _ =>
            Except.ok [CMEvent.searched (dedupSearchParams m tableName)]
          | .ok _ =>
            .ok [.searched (dedupSearchParams m tableName),
              .inserted (mkMemoryWrite m tableName freshId nowMs
                (sims0.length == 0))]) : Except String (List CMEvent)) =
            .ok evs := hrun1
        cases hins : insert (mkMemoryWrite m tableName freshId nowMs
            (sims0.length == 0)) with
        | error e =>
          rw [hins] at hrun1'
          have hrun2 : Except.ok [CMEvent.searched (dedupSearchParams m
              tableName)] = .ok evs := hrun1'
          cases hrun2
          simp at hd
        | ok u =>
          rw [hins] at hrun1'
          have hrun2 : Except.ok [CMEvent.searched (dedupSearchParams m
              tableName), CMEvent.inserted (mkMemoryWrite m tableName freshId
                nowMs (sims0.length == 0))] = .ok evs := hrun1'
          cases hrun2
          simp only [List.mem_cons, List.mem_singleton] at hd
          rcases hd with hd | hd | hd
          · cases hd
          · cases hd
            cases u
            exact hins
          · cases hd
    | none =>
      have hrun1 : ((match insert (mkMemoryWrite m tableName freshId nowMs
          true) with
          | .error _ => Except.ok []
          | .ok _ =>
            .ok [.inserted (mkMemoryWrite m tableName freshId nowMs
              true)]) : Except String (List CMEvent)) = .ok evs := by
        rw [← hrun]
        unfold createMemoryModel
        rw [hemb]
      cases hins : insert (mkMemoryWrite m tableName freshId nowMs true) with
      | error e =>
        rw [hins] at hrun1
        have hrun2 : (Except.ok [] : Except String (List CMEvent)) =
            .ok evs := hrun1
        cases hrun2
        cases hd
      | ok u =>
        rw [hins] at hrun1
        have hrun2 : Except.ok [CMEvent.inserted (mkMemoryWrite m tableName
            freshId nowMs true)] = .ok evs := hrun1
        cases hrun2
        simp only [List.mem_singleton] at hd
        cases hd
        cases u
        exact hins

/-- Witness for C10's amended theorem: a concrete run whose insert fails is
still resolved normally and persists nothing. -/
theorem createMemory_resolves_when_connected_witness :
    (Except.ok () : Except String Unit) = .ok () ∧
    ((∃ evs, createMemoryModel (.ok ()) (fun _ => .ok [])
        (fun _ => .error "insert failed")
        ⟨none, "r", none, "u", "c", none, none⟩ "t" "f" 0 = .ok evs) ∧
    (∀ evs d, createMemoryModel (.ok ()) (fun _ => .ok [])
        (fun _ => .error "insert failed")
        ⟨none, "r", none, "u", "c", none, none⟩ "t" "f" 0 = .ok evs →
      CMEvent.inserted d ∈ evs →
        (fun (_ : MemoryWrite) =>
          (.error "insert failed" : Except String Unit)) d = .ok ())) :=
  ⟨rfl, createMemory_resolves_when_connected (.ok ()) (fun _ => .ok [])
    (fun _ => .error "insert failed") ⟨none, "r", none, "u", "c", none, none⟩
    "t" "f" 0 rfl⟩

/-- C8 (code bug): a candidate whose per-document scoring throws is not
dropped — the `catch` returns `[]` from inside `Array.map`, so the empty
array itself becomes an element of the result list.  With a malformed first
document and a well-formed second one, the returned list is
`[[], (record)]`: the placeholder has no `embedding`/`levenshtein_score`
fields and still counts against `query_match_count`. -/
theorem getCachedEmbeddings_keeps_empty_placeholder :
    (getCachedEmbeddingsModel [] "query"
        [⟨[1], none⟩, ⟨[2], some "query"⟩] 2).1 =
      [ScoredEntry.emptyArray, ScoredEntry.record [2] 0] ∧
    ScoredEntry.emptyArray ∈ (getCachedEmbeddingsModel [] "query"
        [⟨[1], none⟩, ⟨[2], some "query"⟩] 2).1 := by
  constructor
  · rfl
  · rw [show (getCachedEmbeddingsModel [] "query"
        [⟨[1], none⟩, ⟨[2], some "query"⟩] 2).1 =
      [ScoredEntry.emptyArray, ScoredEntry.record [2] 0] from rfl]
    exact List.mem_cons_self _ _

end MongoAdapter
